import Mathlib

/-!
Shallow embedding of the sqlbunny validation/resolution engine
(`def/validate.go`): type registration, model flattening (`makeModel`),
the per-model constraint checks, and the `Schema()` entry point.

Go strings are Lean `String`s, Go `map[string]T` is an association list
with insert-overwrite semantics (`mapInsert` / `mapLookup`), the Go
append-only package-global `validationErrors` is threaded explicitly: each
pass returns the list of diagnostics it records, and the entry point
concatenates them in recording order (the Go code only ever appends to the
global and reads it once, at the end of `Schema()`, so this is
observationally the same).  Go runtime panics (nil-pointer dereference,
index out of range) are an explicit `panicked` outcome, and the unbounded
recursion of `makeModel` over struct types is made total with a fuel
parameter: exhausted fuel is the `diverge` outcome.
-/

set_option maxHeartbeats 1000000

namespace Sqlbunny

/-- A Go `map[string]α`: association list whose insert overwrites the
existing binding for the key in place. -/
def mapInsert (k : String) (v : α) : List (String × α) → List (String × α)
  | [] => [(k, v)]
  | (k', v') :: rest => if k = k' then (k, v) :: rest else (k', v') :: mapInsert k v rest

/-- Lookup in a Go `map[string]α`. -/
def mapLookup (k : String) : List (String × α) → Option α
  | [] => none
  | (k', v) :: rest => if k = k' then some v else mapLookup k rest

/-- A field flag: the nullability flag `nullFlag` or a key/value `tagFlag`. -/
inductive FieldFlag where
  | nullFlag : FieldFlag
  | tagFlag (key value : String) : FieldFlag
deriving DecidableEq, Repr

/-- One entry of a model's (or struct type's) item list: `field`,
`primaryKey`, `index`, `unique` or `foreignKey` declarations. -/
inductive ModelItem where
  | field (name typeName : String) (flags : List FieldFlag) : ModelItem
  | primaryKey (names : List String) : ModelItem
  | index (names : List String) : ModelItem
  | unique (names : List String) : ModelItem
  | foreignKey (columnName foreignModelName : String) : ModelItem
deriving DecidableEq, Repr

/-- A resolved type: a base type carrying its database type string
(everything `schema.BaseType.TypeDB()` is read for), or a struct with its
unparsed item list (what `typesByName[...].info.(structType).items` yields).
The engine looks both `s.Types` and `typesByName` up by the same name with
the same keys, so one map serves for both. -/
inductive TypeInfo where
  | base (dbType : String) : TypeInfo
  | strukt (items : List ModelItem) : TypeInfo
deriving DecidableEq, Repr

/-- A declared type: `{name, kind: Base|Struct, members-or-binding}`. -/
structure TypeDecl where
  name : String
  info : TypeInfo
deriving DecidableEq, Repr

/-- A declared model: `{name, items}`. -/
structure ModelDecl where
  name : String
  items : List ModelItem
deriving DecidableEq, Repr

/-- `schema.Field`: top-level declared member, pre-flattening. -/
structure Field where
  name : String
  ftype : TypeInfo
  nullable : Bool
  tags : List (String × String)
deriving DecidableEq, Repr

/-- `schema.Column`: flattened physical column. -/
structure Column where
  name : String
  ctype : TypeInfo
  dbType : String
  nullable : Bool
deriving DecidableEq, Repr

/-- `schema.PrimaryKey`. -/
structure PrimaryKey where
  columns : List String
deriving DecidableEq, Repr

/-- `schema.Index` (name assigned by `checkIndexes`). -/
structure Index where
  name : String
  columns : List String
deriving DecidableEq, Repr

/-- `schema.Unique` (name assigned by `checkUniques`). -/
structure Unique where
  name : String
  columns : List String
deriving DecidableEq, Repr

/-- `schema.ForeignKey` (name and foreign column assigned by
`checkForeignKeys`; Go zero value `""` before that). -/
structure ForeignKey where
  model : String
  column : String
  foreignModel : String
  name : String
  foreignColumn : String
deriving DecidableEq, Repr

/-- `schema.Model`. -/
structure Model where
  name : String
  fields : List Field
  columns : List Column
  primaryKey : Option PrimaryKey
  indexes : List Index
  uniques : List Unique
  foreignKeys : List ForeignKey
deriving DecidableEq, Repr

/-- The fresh model object built at registration (`&schema.Model{Name: m.name}`). -/
def Model.mk0 (name : String) : Model :=
  ⟨name, [], [], none, [], [], []⟩

/-- `schema.Schema`. `relsComputed` — modelled from the spec: the external
relationship-derivation collaborator (`s.CalculateRelationships()`, whose
source is outside this package's validation file) is recorded as a flag set
exactly when it is invoked. -/
structure Schema where
  types : List (String × TypeInfo)
  models : List (String × Model)
  relsComputed : Bool
deriving DecidableEq, Repr

/-- Modelled from the spec: `schema.Model.FindColumn` (schema package, not
in this file's source) looks a column up by name among the model's
flattened columns. -/
def Model.FindColumn (m : Model) (name : String) : Option Column :=
  m.columns.find? (fun c => c.name = name)

/-- `isNullable`: whether the flag list holds the null flag. -/
def isNullable (flags : List FieldFlag) : Bool :=
  flags.any (fun f => f = FieldFlag.nullFlag)

/-- `undot` on the character list: `strings.Replace(s, ".", "__", -1)`. -/
def undotChars : List Char → List Char
  | [] => []
  | c :: cs => if c = '.' then '_' :: '_' :: undotChars cs else c :: undotChars cs

/-- `undot`: replace every `.` by `__`. -/
def undot (s : String) : String :=
  ⟨undotChars s.data⟩

/-- `undotAll`. -/
def undotAll (s : List String) : List String :=
  s.map undot

/-- `prefixAll`. -/
def prefixAll (s : List String) (pfx : String) : List String :=
  s.map (fun x => pfx ++ x)

/-- `makeName`: `<model>___<col1>___...___<coln>___<suffix>`. Triple
underscore because column names can contain double underscores. -/
def makeName (model : String) (columns : List String) (suffix : String) : String :=
  model ++ "___" ++ String.intercalate "___" columns ++ "___" ++ suffix

/-- `makeTags`, accumulator form mirroring the Go loop: walk the `tagFlag`
entries in order, diagnose a key already present, then insert (overwrite). -/
def makeTagsGo (flags : List FieldFlag) (context : String)
    (acc : List (String × String)) (errs : List String) :
    List (String × String) × List String :=
  match flags with
  | [] => (acc, errs)
  | FieldFlag.nullFlag :: rest => makeTagsGo rest context acc errs
  | FieldFlag.tagFlag k v :: rest =>
    let errs := errs ++ (if (mapLookup k acc).isSome
      then [context ++ " has duplicate tag '" ++ k ++ "'"] else [])
    makeTagsGo rest context (mapInsert k v acc) errs

/-- The presence column's type: `BaseTypeNullable{Name: "bool", ..., Postgres: "boolean"}`. -/
def boolBaseType : TypeInfo := TypeInfo.base "boolean"

/-- Count of leaf base-type members reachable through an item list, one
level: base-type fields count one, struct fields count their members via
`descend`, unknown types and non-field items count zero (mirroring which
items produce leaf columns in `makeModel`). -/
def leafCountLevel (types : List (String × TypeInfo))
    (descend : List ModelItem → Option Nat) : List ModelItem → Option Nat
  | [] => some 0
  | ModelItem.field _ tn _ :: rest =>
    (match mapLookup tn types with
    | none => leafCountLevel types descend rest
    | some (TypeInfo.base _) => (leafCountLevel types descend rest).map (· + 1)
    | some (TypeInfo.strukt sitems) =>
      match descend sitems with
      | none => none
      | some k => (leafCountLevel types descend rest).map (· + k))
  | _ :: rest => leafCountLevel types descend rest

/-- Count of leaf base-type members at any depth, fuel-indexed like
`makeModel`'s struct descent. -/
def leafCount (types : List (String × TypeInfo)) : Nat → List ModelItem → Option Nat
  | 0 => leafCountLevel types (fun _ => none)
  | f + 1 => leafCountLevel types (leafCount types f)

/-- One level of: no member field resolving to a struct type is nullable. -/
def noNullStructLevel (types : List (String × TypeInfo))
    (descendOk : List ModelItem → Bool) : List ModelItem → Bool
  | [] => true
  | ModelItem.field _ tn flags :: rest =>
    (match mapLookup tn types with
    | none => noNullStructLevel types descendOk rest
    | some (TypeInfo.base _) => noNullStructLevel types descendOk rest
    | some (TypeInfo.strukt sitems) =>
      !(isNullable flags) && descendOk sitems && noNullStructLevel types descendOk rest)
  | _ :: rest => noNullStructLevel types descendOk rest

/-- No field at any depth below this item list is a nullable struct,
fuel-indexed like `makeModel`'s struct descent. -/
def noNullStruct (types : List (String × TypeInfo)) : Nat → List ModelItem → Bool
  | 0 => noNullStructLevel types (fun _ => false)
  | f + 1 => noNullStructLevel types (noNullStruct types f)

/-- `items` contains a field whose declared type name `tn` resolves to a
struct in the registry: one edge of the struct-type reference graph. -/
def structRefIn (types : List (String × TypeInfo)) (items : List ModelItem)
    (tn : String) : Prop :=
  ∃ name flags, ModelItem.field name tn flags ∈ items ∧
    ∃ sitems, mapLookup tn types = some (TypeInfo.strukt sitems)

/-- A rank function witnessing acyclicity of the struct-type reference
graph: every struct-to-struct reference strictly decreases the rank. -/
def acyclicRank (types : List (String × TypeInfo)) (rank : String → Nat) : Prop :=
  ∀ tn sitems tn', mapLookup tn types = some (TypeInfo.strukt sitems) →
    structRefIn types sitems tn' → rank tn' < rank tn

/-- An upper bound of `rank` over the registered type names. -/
def maxRank (types : List (String × TypeInfo)) (rank : String → Nat) : Nat :=
  (types.map (fun p => rank p.1)).foldr max 0

/-- Whether an item is a `field` declaration. -/
def ModelItem.isField : ModelItem → Bool
  | ModelItem.field _ _ _ => true
  | _ => false

/-- The column-name lists of the `primaryKey` declarations of an item list,
in declaration order. -/
def pkDecls (items : List ModelItem) : List (List String) :=
  items.filterMap (fun i => match i with
    | ModelItem.primaryKey ns => some ns
    | _ => none)

/-- One level of `makeModel`'s recursion: walk the item list, handing each
struct descent to `descend` (the next-lower fuel level).  Structurally
recursive on the item list so that it reduces definitionally. -/
def makeModelLevel (types : List (String × TypeInfo))
    (descend : Model → List ModelItem → String → Bool → Option (Model × List String)) :
    Model → List ModelItem → String → Bool → Option (Model × List String)
  | m, [], _, _ => some (m, [])
  | m, ModelItem.field name typeName flags :: rest, pfx, forceNullable =>
    (match mapLookup typeName types with
    | none =>
      (makeModelLevel types descend m rest pfx forceNullable).map (fun (m', errs) =>
        (m', ("Model '" ++ m.name ++ "' field '" ++ pfx ++ name
          ++ "' references unknown type '" ++ typeName ++ "'") :: errs))
    | some t =>
      let nullable := isNullable flags
      let tagErrs := if pfx = "" then
          (makeTagsGo flags
            ("Model '" ++ m.name ++ "' field '" ++ pfx ++ name ++ "'") [] []).2
        else []
      let m := if pfx = "" then
          { m with fields := m.fields ++ [⟨name, t, nullable || forceNullable,
            (makeTagsGo flags
              ("Model '" ++ m.name ++ "' field '" ++ pfx ++ name ++ "'") [] []).1⟩] }
        else m
      match t with
      | TypeInfo.strukt sitems =>
        (match descend m sitems (pfx ++ name ++ ".") (nullable || forceNullable) with
        | none => none
        | some (m, serrs) =>
          let m := if nullable then
              { m with columns := m.columns
                ++ [⟨undot (pfx ++ name), boolBaseType, "boolean", forceNullable⟩] }
            else m
          (makeModelLevel types descend m rest pfx forceNullable).map (fun (m', errs) =>
            (m', tagErrs ++ serrs ++ errs)))
      | TypeInfo.base dbType =>
        let m := { m with columns := m.columns
          ++ [⟨undot (pfx ++ name), t, dbType, nullable || forceNullable⟩] }
        (makeModelLevel types descend m rest pfx forceNullable).map (fun (m', errs) =>
          (m', tagErrs ++ errs)))
  | m, ModelItem.primaryKey names :: rest, pfx, forceNullable =>
    let dupErrs := if m.primaryKey.isSome
      then ["Model '" ++ m.name ++ "' has multiple primary key definitions"] else []
    let m := { m with primaryKey := some ⟨undotAll (prefixAll names pfx)⟩ }
    (makeModelLevel types descend m rest pfx forceNullable).map (fun (m', errs) =>
      (m', dupErrs ++ errs))
  | m, ModelItem.index names :: rest, pfx, forceNullable =>
    let m := { m with indexes := m.indexes ++ [⟨"", undotAll (prefixAll names pfx)⟩] }
    makeModelLevel types descend m rest pfx forceNullable
  | m, ModelItem.unique names :: rest, pfx, forceNullable =>
    let m := { m with uniques := m.uniques ++ [⟨"", undotAll (prefixAll names pfx)⟩] }
    makeModelLevel types descend m rest pfx forceNullable
  | m, ModelItem.foreignKey columnName foreignModelName :: rest, pfx, forceNullable =>
    let m := { m with foreignKeys := m.foreignKeys
      ++ [⟨m.name, undot (pfx ++ columnName), foreignModelName, "", ""⟩] }
    makeModelLevel types descend m rest pfx forceNullable

/-- `makeModel`: recursive flattening of a model's item list.  `fuel`
bounds the struct-descent depth (the Go recursion is unbounded on cyclic
struct references); `none` means the fuel ran out, i.e. the Go code would
still be recursing.  A descent into a struct's items runs at `fuel - 1`;
with fuel `0` a struct descent fails. -/
def makeModel (fuel : Nat) (types : List (String × TypeInfo)) (m : Model)
    (items : List ModelItem) (pfx : String) (forceNullable : Bool) :
    Option (Model × List String) :=
  match fuel with
  | 0 => makeModelLevel types (fun _ _ _ _ => none) m items pfx forceNullable
  | fuel' + 1 => makeModelLevel types (makeModel fuel' types) m items pfx forceNullable

/-- `checkDuplicateFields`: one diagnostic per field name already seen. -/
def checkDuplicateFieldsGo (mname : String) (fields : List Field)
    (seen : List String) : List String :=
  match fields with
  | [] => []
  | f :: rest =>
    (if f.name ∈ seen
      then ["Model '" ++ mname ++ "' field '" ++ f.name ++ "' is defined multiple times."]
      else [])
    ++ checkDuplicateFieldsGo mname rest (f.name :: seen)

/-- `checkDuplicateFields` entry point. -/
def checkDuplicateFields (m : Model) : List String :=
  checkDuplicateFieldsGo m.name m.fields []

/-- `describeIndex`: comma-space join of the column list. -/
def describeIndex (columns : List String) : String :=
  String.intercalate ", " columns

/-- `checkPrimaryKey`: missing primary key, unknown referenced column,
nullable referenced column. -/
def checkPrimaryKey (m : Model) : List String :=
  match m.primaryKey with
  | none => ["Model '" ++ m.name ++ "' is missing a primary key"]
  | some pk =>
    pk.columns.flatMap (fun name =>
      match m.FindColumn name with
      | none =>
        ["Model '" ++ m.name ++ "' primary key references unknown column '" ++ name ++ "'"]
      | some c =>
        if c.nullable
          then ["Model '" ++ m.name ++ "' primary key references nullable column '" ++ name ++ "'"]
          else [])

/-- Diagnostics one index contributes in `checkIndexes`: a duplicate-name
diagnostic when its generated name was already seen, plus one diagnostic per
referenced column that is not a column of the model. -/
def indexItemErrors (m : Model) (cols : List String)
    (name : String) (seen : List String) : List String :=
  (if name ∈ seen
    then ["Model '" ++ m.name ++ "' index '" ++ describeIndex cols
      ++ "' is defined multiple times."]
    else [])
  ++ cols.flatMap (fun c =>
      match m.FindColumn c with
      | none => ["Model '" ++ m.name ++ "' index '" ++ describeIndex cols
          ++ "' references unknown column '" ++ c ++ "'"]
      | some _ => [])

/-- Diagnostics one unique contributes in `checkUniques` (the Go loop is
textually identical to the index one up to the word `unique`). -/
def uniqueItemErrors (m : Model) (cols : List String)
    (name : String) (seen : List String) : List String :=
  (if name ∈ seen
    then ["Model '" ++ m.name ++ "' unique '" ++ describeIndex cols
      ++ "' is defined multiple times."]
    else [])
  ++ cols.flatMap (fun c =>
      match m.FindColumn c with
      | none => ["Model '" ++ m.name ++ "' unique '" ++ describeIndex cols
          ++ "' references unknown column '" ++ c ++ "'"]
      | some _ => [])

/-- The `checkIndexes` loop: assign each index its generated name, diagnose
duplicate names against the `seen` set, diagnose unknown columns. -/
def checkIndexesGo (m : Model) (idxs : List Index) (seen : List String) :
    List Index × List String :=
  match idxs with
  | [] => ([], [])
  | ix :: rest =>
    let name := makeName m.name ix.columns "idx"
    ({ ix with name := name } :: (checkIndexesGo m rest (name :: seen)).1,
      indexItemErrors m ix.columns name seen
        ++ (checkIndexesGo m rest (name :: seen)).2)

/-- `checkIndexes`. -/
def checkIndexes (m : Model) : Model × List String :=
  ({ m with indexes := (checkIndexesGo m m.indexes []).1 },
    (checkIndexesGo m m.indexes []).2)

/-- The `checkUniques` loop: identical to `checkIndexesGo` with suffix
`key` and the word `unique` in diagnostics. -/
def checkUniquesGo (m : Model) (uns : List Unique) (seen : List String) :
    List Unique × List String :=
  match uns with
  | [] => ([], [])
  | u :: rest =>
    let name := makeName m.name u.columns "key"
    ({ u with name := name } :: (checkUniquesGo m rest (name :: seen)).1,
      uniqueItemErrors m u.columns name seen
        ++ (checkUniquesGo m rest (name :: seen)).2)

/-- `checkUniques`. -/
def checkUniques (m : Model) : Model × List String :=
  ({ m with uniques := (checkUniquesGo m m.uniques []).1 },
    (checkUniquesGo m m.uniques []).2)

/-- Result of processing foreign keys: normal completion, or a Go runtime
panic (carrying the diagnostics recorded before the panic). -/
inductive FKResult (α : Type) where
  | ok (value : α) (errs : List String) : FKResult α
  | panicked (msg : String) (errs : List String) : FKResult α
deriving DecidableEq, Repr

/-- One iteration of the `checkForeignKeys` loop: assign the generated
name; diagnose a missing source column; diagnose a missing target model
(and skip); dereference the target's primary key (nil pointer panic when
the target has none), diagnose a primary key that is not exactly one
column, then read its first column (index-out-of-range panic when it has
none) into `ForeignColumn`. -/
def checkFK (builtModels : List (String × Model)) (m : Model) (f : ForeignKey) :
    FKResult ForeignKey :=
  let f := { f with name := makeName m.name [f.column] "fkey" }
  let colErrs := match m.FindColumn f.column with
    | none => ["Model '" ++ m.name ++ "' has a foreign key on non-existing field '"
        ++ f.column ++ "'"]
    | some _ => []
  match mapLookup f.foreignModel builtModels with
  | none =>
    FKResult.ok f (colErrs ++ ["Model '" ++ m.name ++ "' field '" ++ f.column
      ++ "' has foreign key to non-existing model '" ++ f.foreignModel ++ "'"])
  | some m2 =>
    match m2.primaryKey with
    | none =>
      FKResult.panicked
        "runtime error: invalid memory address or nil pointer dereference" colErrs
    | some pk =>
      let pkErrs := if pk.columns.length ≠ 1
        then ["Model '" ++ m.name ++ "' field '" ++ f.column
          ++ "' has foreign key to model with multi-column primary key '"
          ++ f.foreignModel ++ "'"]
        else []
      match pk.columns with
      | [] => FKResult.panicked "runtime error: index out of range" (colErrs ++ pkErrs)
      | ff :: _ => FKResult.ok { f with foreignColumn := ff } (colErrs ++ pkErrs)

/-- The diagnostics recorded by a foreign-key step, whether it completed
or panicked (the Go global retains them either way). -/
def FKResult.errList : FKResult α → List String
  | FKResult.ok _ e => e
  | FKResult.panicked _ e => e

/-- The `checkForeignKeys` loop over the model's foreign keys. -/
def checkFKsGo (builtModels : List (String × Model)) (m : Model)
    (fks : List ForeignKey) : FKResult (List ForeignKey) :=
  match fks with
  | [] => FKResult.ok [] []
  | f :: rest =>
    match checkFK builtModels m f with
    | FKResult.panicked msg errs => FKResult.panicked msg errs
    | FKResult.ok f' errs =>
      match checkFKsGo builtModels m rest with
      | FKResult.panicked msg errs' => FKResult.panicked msg (errs ++ errs')
      | FKResult.ok rest' errs' => FKResult.ok (f' :: rest') (errs ++ errs')

/-- `checkForeignKeys`. -/
def checkForeignKeys (builtModels : List (String × Model)) (m : Model) :
    FKResult Model :=
  match checkFKsGo builtModels m m.foreignKeys with
  | FKResult.panicked msg errs => FKResult.panicked msg errs
  | FKResult.ok fks errs => FKResult.ok { m with foreignKeys := fks } errs

/-- Type-registration loop of `Schema()`: duplicate-name diagnostic, then
insert (a second entry with the same name overwrites the first, as in a Go
map). -/
def registerTypes (ts : List TypeDecl) (acc : List (String × TypeInfo)) :
    List (String × TypeInfo) × List String :=
  match ts with
  | [] => (acc, [])
  | t :: rest =>
    let dupErrs := if (mapLookup t.name acc).isSome
      then ["Type '" ++ t.name ++ "' is defined multiple times"] else []
    let (map, errs) := registerTypes rest (mapInsert t.name t.info acc)
    (map, dupErrs ++ errs)

/-- Modelled from the spec: the type-reference resolution pass
(`t.info.resolveTypes`, whose implementation lives outside this package's
validation file) looks each name a struct type's members reference up in
the registry and records a diagnostic naming the referencing type, the
member as context, and the missing name; base types reference no other
types. -/
def resolveTypes (tmap : List (String × TypeInfo)) (ts : List TypeDecl) : List String :=
  ts.flatMap (fun t =>
    match t.info with
    | TypeInfo.base _ => []
    | TypeInfo.strukt items =>
      items.flatMap (fun item =>
        match item with
        | ModelItem.field fname ftn _ =>
          if (mapLookup ftn tmap).isSome then []
          else ["Type '" ++ t.name ++ "' field '" ++ fname
            ++ "' references unknown type '" ++ ftn ++ "'"]
        | _ => []))

/-- Model-registration loop of `Schema()`: duplicate-name diagnostic, then
build the model with `makeModel` and insert it (overwriting a previous
model of the same name, as the Go map does).  `none` propagates fuel
exhaustion in `makeModel`. -/
def buildModels (fuel : Nat) (tmap : List (String × TypeInfo))
    (ms : List ModelDecl) (acc : List (String × Model)) :
    Option (List (String × Model) × List String) :=
  match ms with
  | [] => some (acc, [])
  | d :: rest =>
    let dupErrs := if (mapLookup d.name acc).isSome
      then ["Model '" ++ d.name ++ "' is defined multiple times"] else []
    match makeModel fuel tmap (Model.mk0 d.name) d.items "" false with
    | none => none
    | some (m, merrs) =>
      match buildModels fuel tmap rest (mapInsert d.name m acc) with
      | none => none
      | some (built, errs) => some (built, dupErrs ++ merrs ++ errs)

/-- The per-model check loop of `Schema()`: duplicate fields, primary key,
indexes, uniques, foreign keys, in that order for each model.  Foreign-key
lookups read the map of built models (`s.Models`). -/
def runChecks (builtModels : List (String × Model)) (ms : List (String × Model)) :
    FKResult (List (String × Model)) :=
  match ms with
  | [] => FKResult.ok [] []
  | (name, m) :: rest =>
    let e1 := checkDuplicateFields m
    let e2 := checkPrimaryKey m
    let (m, e3) := checkIndexes m
    let (m, e4) := checkUniques m
    match checkForeignKeys builtModels m with
    | FKResult.panicked msg e5 =>
      FKResult.panicked msg (e1 ++ e2 ++ e3 ++ e4 ++ e5)
    | FKResult.ok m e5 =>
      match runChecks builtModels rest with
      | FKResult.panicked msg errs =>
        FKResult.panicked msg (e1 ++ e2 ++ e3 ++ e4 ++ e5 ++ errs)
      | FKResult.ok rest' errs =>
        FKResult.ok ((name, m) :: rest') (e1 ++ e2 ++ e3 ++ e4 ++ e5 ++ errs)

/-- The aggregate error built when the diagnostic list is non-empty:
`"<N> errors found:\n"` followed by one line per diagnostic in recorded
order. -/
def aggregateError (errs : List String) : String :=
  toString errs.length ++ " errors found:\n"
    ++ String.join (errs.map (fun e => e ++ "\n"))

/-- Outcome of one `Schema()` call.  `diverge`: `makeModel` ran out of
fuel, i.e. the Go code recurses without bound.  `panicked`: a Go runtime
panic aborted the run (diagnostics recorded up to the panic attached).
`ok result err errors`: the call returned `(result, err)` with `errors` the
final contents of the package-global `validationErrors` list. -/
inductive RunOutcome where
  | diverge : RunOutcome
  | panicked (msg : String) (errors : List String) : RunOutcome
  | ok (result : Option Schema) (err : Option String) (errors : List String) : RunOutcome
deriving DecidableEq, Repr

/-- Outcome of the passes of one `Schema()` call before the final
error-count test: divergence (fuel exhaustion in `makeModel`), a runtime
panic, or completion with the type map, the checked models and the
diagnostics this call recorded, in recording order. -/
inductive CoreOutcome where
  | diverge : CoreOutcome
  | panicked (msg : String) (errors : List String) : CoreOutcome
  | done (tmap : List (String × TypeInfo)) (models : List (String × Model))
      (errors : List String) : CoreOutcome
deriving DecidableEq, Repr

/-- The passes of `Schema()` in order: register types, resolve type
references, register and build models, run the per-model checks. -/
def runCore (fuel : Nat) (ts : List TypeDecl) (ms : List ModelDecl) : CoreOutcome :=
  let tmap := (registerTypes ts []).1
  let e1 := (registerTypes ts []).2
  let e2 := resolveTypes tmap ts
  match buildModels fuel tmap ms [] with
  | none => CoreOutcome.diverge
  | some (built, e3) =>
    match runChecks built built with
    | FKResult.panicked msg e4 => CoreOutcome.panicked msg (e1 ++ e2 ++ e3 ++ e4)
    | FKResult.ok models' e4 => CoreOutcome.done tmap models' (e1 ++ e2 ++ e3 ++ e4)

/-- The `Schema()` entry point (named `runSchema` because `Schema` is the
result type).  `errs0` is the content of the package-global
`validationErrors` when the call starts: the global is append-only during a
run and never cleared, so the run extends it and the final length test at
the end of `Schema()` sees the whole accumulated list. -/
def runSchema (fuel : Nat) (ts : List TypeDecl) (ms : List ModelDecl)
    (errs0 : List String) : RunOutcome :=
  match runCore fuel ts ms with
  | CoreOutcome.diverge => RunOutcome.diverge
  | CoreOutcome.panicked msg e => RunOutcome.panicked msg (errs0 ++ e)
  | CoreOutcome.done tmap models' e =>
    let errs := errs0 ++ e
    if errs.isEmpty then
      RunOutcome.ok (some ⟨tmap, models', true⟩) none errs
    else
      RunOutcome.ok none (some (aggregateError errs)) errs

/-! Concrete declaration sets used by witnesses and counterexamples. -/

/-- A base type `int` mapping to database type `integer`. -/
def tyInt : TypeDecl := ⟨"int", TypeInfo.base "integer"⟩

/-- A base type `decimal`. -/
def tyDecimal : TypeDecl := ⟨"decimal", TypeInfo.base "decimal"⟩

/-- Scenario A: `User{id PK}`. -/
def userDecl : ModelDecl :=
  ⟨"User", [ModelItem.field "id" "int" [], ModelItem.primaryKey ["id"]]⟩

/-- Scenario A: `Post{id PK, author_id FK→User}`. -/
def postDecl : ModelDecl :=
  ⟨"Post", [ModelItem.field "id" "int" [], ModelItem.primaryKey ["id"],
    ModelItem.field "author_id" "int" [], ModelItem.foreignKey "author_id" "User"]⟩

/-- Scenario B: `Order{total decimal, nullable}` with primary key on `total`. -/
def orderDecl : ModelDecl :=
  ⟨"Order", [ModelItem.field "total" "decimal" [FieldFlag.nullFlag],
    ModelItem.primaryKey ["total"]]⟩

/-- A model `A` with a valid primary key and a foreign key to `B`. -/
def modelA : ModelDecl :=
  ⟨"A", [ModelItem.field "x" "int" [], ModelItem.primaryKey ["x"],
    ModelItem.foreignKey "x" "B"]⟩

/-- A model `B` that declares no primary key at all. -/
def modelB_noPK : ModelDecl := ⟨"B", [ModelItem.field "y" "int" []]⟩

/-- A model `B` whose primary key declaration lists no columns. -/
def modelB_emptyPK : ModelDecl :=
  ⟨"B", [ModelItem.field "y" "int" [], ModelItem.primaryKey []]⟩

/-- A struct type `Inner{c int}`. -/
def tyInner : TypeDecl := ⟨"Inner", TypeInfo.strukt [ModelItem.field "c" "int" []]⟩

/-- A struct type `Outer{b Inner, nullable}`: its only member is itself a
nullable struct. -/
def tyOuter : TypeDecl :=
  ⟨"Outer", TypeInfo.strukt [ModelItem.field "b" "Inner" [FieldFlag.nullFlag]]⟩

/-- A model with a top-level nullable field `a` of type `Outer`. -/
def nestedNullDecl : ModelDecl :=
  ⟨"M", [ModelItem.field "a" "Outer" [FieldFlag.nullFlag],
    ModelItem.field "k" "int" [], ModelItem.primaryKey ["k"]]⟩

/-- A model declaring two primary keys, on `a` then on `b`. -/
def twoPKDecl : ModelDecl :=
  ⟨"N", [ModelItem.field "a" "int" [], ModelItem.field "b" "int" [],
    ModelItem.primaryKey ["a"], ModelItem.primaryKey ["b"]]⟩

/-- The model `Order` exactly as Scenario B's run builds it: one nullable
field and column `total` of base type `decimal`, primary key on `total`. -/
def orderModel : Model :=
  ⟨"Order", [⟨"total", TypeInfo.base "decimal", true, []⟩],
    [⟨"total", TypeInfo.base "decimal", "decimal", true⟩],
    some ⟨["total"]⟩, [], [], []⟩

/-- The registered type map of the nested-nullable-struct example:
`Inner{c int}`, `Outer{b Inner, nullable}`. -/
def cTypesMap : List (String × TypeInfo) :=
  [("int", TypeInfo.base "integer"),
   ("Inner", TypeInfo.strukt [ModelItem.field "c" "int" []]),
   ("Outer", TypeInfo.strukt [ModelItem.field "b" "Inner" [FieldFlag.nullFlag]])]

/-- A flat struct `S{x int, y int}` with two leaf base members, and its map. -/
def flatTypesMap : List (String × TypeInfo) :=
  [("int", TypeInfo.base "integer"),
   ("S", TypeInfo.strukt [ModelItem.field "x" "int" [], ModelItem.field "y" "int" []])]

/-- The model built by flattening a nullable field `a` of type `S` into a
fresh model `F`: leaf columns `a__x`, `a__y` (both forced nullable) and
the presence column `a`. -/
def flatBuiltModel : Model :=
  ⟨"F",
    [⟨"a", TypeInfo.strukt [ModelItem.field "x" "int" [], ModelItem.field "y" "int" []],
      true, []⟩],
    [⟨"a__x", TypeInfo.base "integer", "integer", true⟩,
     ⟨"a__y", TypeInfo.base "integer", "integer", true⟩,
     ⟨"a", TypeInfo.base "boolean", "boolean", false⟩],
    none, [], [], []⟩

/-- A self-referential struct type `C{s C}`: a reference cycle. -/
def tyCyc : TypeDecl := ⟨"C", TypeInfo.strukt [ModelItem.field "s" "C" []]⟩

/-- A model with a field of the cyclic struct type `C`. -/
def cycModelDecl : ModelDecl := ⟨"Z", [ModelItem.field "f" "C" []]⟩

/-- The diagnostic Scenario B records. -/
def eOrd : String := "Model 'Order' primary key references nullable column 'total'"

/-! Equation lemmas for `runSchema` in terms of `runCore`. -/

theorem runSchema_eq_diverge {fuel : Nat} {ts : List TypeDecl} {ms : List ModelDecl}
    (hc : runCore fuel ts ms = CoreOutcome.diverge) (errs0 : List String) :
    runSchema fuel ts ms errs0 = RunOutcome.diverge := by
  unfold runSchema
  rw [hc]

theorem runSchema_eq_panicked {fuel : Nat} {ts : List TypeDecl} {ms : List ModelDecl}
    {msg : String} {e : List String}
    (hc : runCore fuel ts ms = CoreOutcome.panicked msg e) (errs0 : List String) :
    runSchema fuel ts ms errs0 = RunOutcome.panicked msg (errs0 ++ e) := by
  unfold runSchema
  rw [hc]

theorem runSchema_eq_done {fuel : Nat} {ts : List TypeDecl} {ms : List ModelDecl}
    {tmap : List (String × TypeInfo)} {models' : List (String × Model)} {e : List String}
    (hc : runCore fuel ts ms = CoreOutcome.done tmap models' e) (errs0 : List String) :
    runSchema fuel ts ms errs0 =
      if (errs0 ++ e).isEmpty
        then RunOutcome.ok (some ⟨tmap, models', true⟩) none (errs0 ++ e)
        else RunOutcome.ok none (some (aggregateError (errs0 ++ e))) (errs0 ++ e) := by
  unfold runSchema
  rw [hc]

/-! Theorems. -/

/-- C1: for every input declaration set (run started with an empty
diagnostic list), when `Schema()` returns, it fails — nil schema together
with a single aggregate error whose body is the `"<N> errors found:\n"`
header (N the number of recorded diagnostics) followed by one line per
diagnostic in recorded order — exactly when at least one diagnostic was
recorded; with no diagnostics it returns the finalized schema with no
error, and the relationship calculator has been invoked on the returned
schema only in that success case. -/
theorem C1_fail_iff_diagnostics (fuel : Nat) (ts : List TypeDecl)
    (ms : List ModelDecl) (res : Option Schema) (err : Option String)
    (errors : List String)
    (h : runSchema fuel ts ms [] = RunOutcome.ok res err errors) :
    (errors ≠ [] → res = none ∧ err = some (aggregateError errors) ∧
      aggregateError errors = toString errors.length ++ " errors found:\n"
        ++ String.join (errors.map (fun e => e ++ "\n"))) ∧
    (errors = [] → err = none ∧
      ∃ s, res = some s ∧ s.relsComputed = true) ∧
    (∀ s, res = some s → errors = [] ∧ s.relsComputed = true) := by
  unfold runSchema at h
  rcases hc : runCore fuel ts ms with _ | ⟨msg, e⟩ | ⟨tmap, models', e⟩ <;>
    rw [hc] at h <;> simp only [List.nil_append] at h
  · exact absurd h (by simp)
  · exact absurd h (by simp)
  · by_cases he : e.isEmpty
    · rw [if_pos he] at h
      obtain ⟨h1, h2, h3⟩ := RunOutcome.ok.inj h
      subst h1; subst h2; subst h3
      rw [List.isEmpty_iff] at he
      refine ⟨fun hne => absurd he hne, fun _ => ⟨rfl, ⟨_, rfl, rfl⟩⟩, ?_⟩
      intro s hs
      exact ⟨he, by cases hs; rfl⟩
    · rw [if_neg he] at h
      obtain ⟨h1, h2, h3⟩ := RunOutcome.ok.inj h
      subst h1; subst h2; subst h3
      rw [List.isEmpty_iff] at he
      refine ⟨fun _ => ⟨rfl, rfl, rfl⟩, fun hemp => absurd hemp he, ?_⟩
      intro s hs
      exact absurd hs (by simp)

/-- Witness for C1 at Scenario B's declaration set: the run records one
diagnostic and fails with the one-line aggregate error. -/
theorem C1_fail_iff_diagnostics_witness :
    (none : Option Schema) = none ∧
    (some (aggregateError [eOrd]) : Option String) = some (aggregateError [eOrd]) ∧
    aggregateError [eOrd] = toString ([eOrd] : List String).length
      ++ " errors found:\n"
      ++ String.join (([eOrd] : List String).map (fun e => e ++ "\n")) :=
  (C1_fail_iff_diagnostics 10 [tyDecimal] [orderDecl] none
    (some (aggregateError [eOrd])) [eOrd] (by rfl)).1 (by simp [eOrd])

/-- C10: diagnostics accumulate across invocations because the diagnostic
list is package-global and never cleared.  A call started with the previous
calls' diagnostics `errs0` ends with a diagnostic list that begins with
`errs0`; its aggregate error's count header counts the whole accumulated
list; if any earlier call failed (`errs0 ≠ []`) this call fails as well,
returning no schema — and the new diagnostics are exactly the ones a fresh
call on the same declaration set records. -/
theorem C10_global_error_accumulation (fuel : Nat) (ts : List TypeDecl)
    (ms : List ModelDecl) (errs0 : List String) (res : Option Schema)
    (err : Option String) (errors : List String)
    (h : runSchema fuel ts ms errs0 = RunOutcome.ok res err errors) :
    errs0 <+: errors ∧
    (errors ≠ [] → err = some (aggregateError errors) ∧
      aggregateError errors = toString errors.length ++ " errors found:\n"
        ++ String.join (errors.map (fun e => e ++ "\n"))) ∧
    (errs0 ≠ [] → res = none ∧ err = some (aggregateError errors)) ∧
    (∃ newE res2 err2, runSchema fuel ts ms [] = RunOutcome.ok res2 err2 newE ∧
      errors = errs0 ++ newE) := by
  rcases hc : runCore fuel ts ms with _ | ⟨msg, e⟩ | ⟨tmap, models', e⟩
  · rw [runSchema_eq_diverge hc] at h
    exact absurd h (by simp)
  · rw [runSchema_eq_panicked hc] at h
    exact absurd h (by simp)
  · rw [runSchema_eq_done hc] at h
    have hfresh := runSchema_eq_done hc []
    simp only [List.nil_append] at hfresh
    by_cases he : (errs0 ++ e).isEmpty
    · rw [if_pos he] at h
      obtain ⟨h1, h2, h3⟩ := RunOutcome.ok.inj h
      subst h1; subst h2; subst h3
      rw [List.isEmpty_iff, List.append_eq_nil] at he
      obtain ⟨he0, hee⟩ := he
      subst he0; subst hee
      refine ⟨⟨[], rfl⟩, fun hne => absurd rfl hne, fun hne => absurd rfl hne, ?_⟩
      simp only [List.isEmpty_nil, if_true] at hfresh
      exact ⟨[], _, _, hfresh, rfl⟩
    · rw [if_neg he] at h
      obtain ⟨h1, h2, h3⟩ := RunOutcome.ok.inj h
      subst h1; subst h2; subst h3
      refine ⟨⟨e, rfl⟩, fun _ => ⟨rfl, rfl⟩, fun _ => ⟨rfl, rfl⟩, ?_⟩
      by_cases hee : e.isEmpty
      · rw [if_pos hee] at hfresh
        exact ⟨e, _, _, hfresh, rfl⟩
      · rw [if_neg hee] at hfresh
        exact ⟨e, _, _, hfresh, rfl⟩

/-- Witness for C10: after Scenario B's failing call, a second identical
call starts from its one recorded diagnostic and fails with a two-line
aggregate whose header counts both. -/
theorem C10_global_error_accumulation_witness :
    [eOrd] <+: [eOrd, eOrd] ∧
    ((some (aggregateError [eOrd, eOrd]) : Option String) = some (aggregateError [eOrd, eOrd]) ∧
      aggregateError [eOrd, eOrd] = toString ([eOrd, eOrd] : List String).length
        ++ " errors found:\n"
        ++ String.join (([eOrd, eOrd] : List String).map (fun e => e ++ "\n"))) ∧
    ((none : Option Schema) = none ∧
      (some (aggregateError [eOrd, eOrd]) : Option String) = some (aggregateError [eOrd, eOrd])) ∧
    (∃ newE res2 err2, runSchema 10 [tyDecimal] [orderDecl] [] = RunOutcome.ok res2 err2 newE ∧
      [eOrd, eOrd] = [eOrd] ++ newE) := by
  have h := C10_global_error_accumulation 10 [tyDecimal] [orderDecl] [eOrd] none
    (some (aggregateError [eOrd, eOrd])) [eOrd, eOrd] (by rfl)
  exact ⟨h.1, h.2.1 (by simp [eOrd]), h.2.2.1 (by simp [eOrd]), h.2.2.2⟩

/-- C8 counterexample: on Scenario B's declaration set the first call
returns a one-error aggregate, the second call (the global list now
non-empty) returns a two-error aggregate, so the second call's result does
not equal the first call's result. -/
theorem C8_counterexample :
    runSchema 10 [tyDecimal] [orderDecl] [] =
      RunOutcome.ok none (some (aggregateError [eOrd])) [eOrd] ∧
    runSchema 10 [tyDecimal] [orderDecl] [eOrd] =
      RunOutcome.ok none (some (aggregateError [eOrd, eOrd])) [eOrd, eOrd] ∧
    (some (aggregateError [eOrd]) : Option String) ≠ some (aggregateError [eOrd, eOrd]) :=
  ⟨rfl, rfl, by decide⟩

/-- C8 amended: running `Schema()` twice on the identical input yields
structurally equal schemas — on success the second call's entire result
equals the first call's; on failure both calls return no schema (the
schema components are equal), though the aggregate error of the second
call counts the accumulated diagnostics. -/
theorem C8_idempotent_schemas (fuel : Nat) (ts : List TypeDecl)
    (ms : List ModelDecl) (res1 : Option Schema) (err1 : Option String)
    (errs1 : List String)
    (h1 : runSchema fuel ts ms [] = RunOutcome.ok res1 err1 errs1) :
    ∃ res2 err2 errs2, runSchema fuel ts ms errs1 = RunOutcome.ok res2 err2 errs2 ∧
      res2 = res1 ∧
      (errs1 = [] → res2 = res1 ∧ err2 = err1 ∧ errs2 = errs1) := by
  rcases hc : runCore fuel ts ms with _ | ⟨msg, e⟩ | ⟨tmap, models', e⟩
  · rw [runSchema_eq_diverge hc] at h1
    exact absurd h1 (by simp)
  · rw [runSchema_eq_panicked hc] at h1
    exact absurd h1 (by simp)
  · rw [runSchema_eq_done hc []] at h1
    simp only [List.nil_append] at h1
    by_cases he : e.isEmpty
    · rw [if_pos he] at h1
      obtain ⟨g1, g2, g3⟩ := RunOutcome.ok.inj h1
      subst g1; subst g2; subst g3
      rw [List.isEmpty_iff] at he
      subst he
      have h2 := runSchema_eq_done hc []
      simp only [List.nil_append, List.isEmpty_nil, if_true] at h2
      exact ⟨_, _, _, h2, rfl, fun _ => ⟨rfl, rfl, rfl⟩⟩
    · rw [if_neg he] at h1
      obtain ⟨g1, g2, g3⟩ := RunOutcome.ok.inj h1
      subst g1; subst g2; subst g3
      have he' : e ≠ [] := by
        intro hx
        subst hx
        exact he rfl
      have hne : (e ++ e).isEmpty = false := by
        rw [List.isEmpty_eq_false]
        intro hx
        rw [List.append_eq_nil] at hx
        exact he' hx.1
      have h2 := runSchema_eq_done hc e
      rw [if_neg (by simp [hne])] at h2
      exact ⟨none, some (aggregateError (e ++ e)), e ++ e, h2, rfl,
        fun hx => absurd hx he'⟩

/-- Witness for C8's amended theorem at Scenario B: the second call also
returns no schema. -/
theorem C8_idempotent_schemas_witness :
    ∃ res2 err2 errs2,
      runSchema 10 [tyDecimal] [orderDecl] [eOrd] = RunOutcome.ok res2 err2 errs2 ∧
      res2 = none ∧
      (([eOrd] : List String) = [] → res2 = none ∧
        err2 = some (aggregateError [eOrd]) ∧ errs2 = [eOrd]) :=
  C8_idempotent_schemas 10 [tyDecimal] [orderDecl] none
    (some (aggregateError [eOrd])) [eOrd] (by rfl)

/-- C3 (the code bug): a foreign key whose target model exists but has no
primary key makes `checkForeignKeys` dereference a nil `PrimaryKey` and
panic, and a target whose primary key lists no columns makes it index an
empty column list and panic (after recording the shape diagnostic), so
`Schema()` crashes instead of returning the aggregate error. -/
theorem C3_fk_missing_target_pk_panics :
    runSchema 10 [tyInt] [modelA, modelB_noPK] [] =
      RunOutcome.panicked "runtime error: invalid memory address or nil pointer dereference" [] ∧
    runSchema 10 [tyInt] [modelA, modelB_emptyPK] [] =
      RunOutcome.panicked "runtime error: index out of range"
        ["Model 'A' field 'x' has foreign key to model with multi-column primary key 'B'"] :=
  ⟨rfl, rfl⟩

/-- C7: a model without a primary key gets the missing-primary-key
diagnostic; every primary-key column name that names no column of the model
gets the unknown-column diagnostic; every one that names a nullable column
gets the nullable-column diagnostic; and on Scenario B (`Order` with
nullable column `total` as primary key) the run records exactly the
nullable-column diagnostic and the schema build fails. -/
theorem C7_primary_key_validity (m : Model) :
    (m.primaryKey = none →
      checkPrimaryKey m = ["Model '" ++ m.name ++ "' is missing a primary key"]) ∧
    (∀ pk, m.primaryKey = some pk → ∀ name ∈ pk.columns,
      (m.FindColumn name = none →
        ("Model '" ++ m.name ++ "' primary key references unknown column '" ++ name ++ "'")
          ∈ checkPrimaryKey m) ∧
      (∀ c, m.FindColumn name = some c → c.nullable = true →
        ("Model '" ++ m.name ++ "' primary key references nullable column '" ++ name ++ "'")
          ∈ checkPrimaryKey m)) ∧
    (runSchema 10 [tyDecimal] [orderDecl] [] =
      RunOutcome.ok none (some (aggregateError [eOrd])) [eOrd] ∧
      eOrd = "Model 'Order' primary key references nullable column 'total'") := by
  refine ⟨fun hpk => by simp [checkPrimaryKey, hpk], ?_, rfl, rfl⟩
  intro pk hpk name hmem
  constructor
  · intro hfc
    simp only [checkPrimaryKey, hpk, List.mem_flatMap]
    exact ⟨name, hmem, by simp [hfc]⟩
  · intro c hfc hnull
    simp only [checkPrimaryKey, hpk, List.mem_flatMap]
    exact ⟨name, hmem, by simp [hfc, hnull]⟩

/-- Witness for C7: on the model `Order` as built by Scenario B (nullable
column `total`, primary key on `total`), the nullable-column diagnostic is
among the primary-key check's output. -/
theorem C7_primary_key_validity_witness :
    ("Model '" ++ orderModel.name ++ "' primary key references nullable column '"
        ++ "total" ++ "'")
      ∈ checkPrimaryKey orderModel :=
  ((C7_primary_key_validity orderModel).2.1 ⟨["total"]⟩ rfl "total" (by decide)).2
    ⟨"total", TypeInfo.base "decimal", "decimal", true⟩ (by rfl) rfl

/-! Lemmas about the index/unique check loops. -/

theorem checkIndexesGo_fst (m : Model) :
    ∀ (idxs : List Index) (seen : List String),
      (checkIndexesGo m idxs seen).1 =
        idxs.map (fun ix => { ix with name := makeName m.name ix.columns "idx" }) := by
  intro idxs
  induction idxs with
  | nil => intro seen; rfl
  | cons ix rest ih =>
    intro seen
    simp only [checkIndexesGo, List.map_cons, ih]

theorem checkUniquesGo_fst (m : Model) :
    ∀ (uns : List Unique) (seen : List String),
      (checkUniquesGo m uns seen).1 =
        uns.map (fun u => { u with name := makeName m.name u.columns "key" }) := by
  intro uns
  induction uns with
  | nil => intro seen; rfl
  | cons u rest ih =>
    intro seen
    simp only [checkUniquesGo, List.map_cons, ih]

theorem checkIndexesGo_mem_unknown (m : Model) (ix : Index) (c : String) :
    ∀ (idxs : List Index) (seen : List String), ix ∈ idxs → c ∈ ix.columns →
      m.FindColumn c = none →
      ("Model '" ++ m.name ++ "' index '" ++ describeIndex ix.columns
        ++ "' references unknown column '" ++ c ++ "'") ∈ (checkIndexesGo m idxs seen).2 := by
  intro idxs
  induction idxs with
  | nil => intro seen h; exact absurd h (by simp)
  | cons hd rest ih =>
    intro seen hmem hc hfc
    rcases List.mem_cons.mp hmem with heq | htl
    · subst heq
      simp only [checkIndexesGo, List.mem_append]
      left
      simp only [indexItemErrors, List.mem_append, List.mem_flatMap]
      right
      exact ⟨c, hc, by simp [hfc]⟩
    · simp only [checkIndexesGo, List.mem_append]
      right
      exact ih _ htl hc hfc

theorem checkIndexesGo_mem_dup_of_seen (m : Model) (ix : Index) :
    ∀ (idxs : List Index) (seen : List String), ix ∈ idxs →
      makeName m.name ix.columns "idx" ∈ seen →
      ("Model '" ++ m.name ++ "' index '" ++ describeIndex ix.columns
        ++ "' is defined multiple times.") ∈ (checkIndexesGo m idxs seen).2 := by
  intro idxs
  induction idxs with
  | nil => intro seen h; exact absurd h (by simp)
  | cons hd rest ih =>
    intro seen hmem hseen
    rcases List.mem_cons.mp hmem with heq | htl
    · subst heq
      simp only [checkIndexesGo, List.mem_append]
      left
      simp only [indexItemErrors, List.mem_append]
      left
      simp [hseen]
    · simp only [checkIndexesGo, List.mem_append]
      right
      exact ih _ htl (List.mem_cons_of_mem _ hseen)

theorem checkIndexesGo_mem_dup (m : Model) (ix1 ix2 : Index)
    (hcols : ix1.columns = ix2.columns) :
    ∀ (l1 l2 l3 : List Index) (seen : List String),
      ("Model '" ++ m.name ++ "' index '" ++ describeIndex ix2.columns
        ++ "' is defined multiple times.")
        ∈ (checkIndexesGo m (l1 ++ ix1 :: l2 ++ ix2 :: l3) seen).2 := by
  intro l1
  induction l1 with
  | nil =>
    intro l2 l3 seen
    simp only [List.nil_append, checkIndexesGo, List.mem_append]
    right
    refine checkIndexesGo_mem_dup_of_seen m ix2 _ _ (by simp) ?_
    rw [← hcols]
    exact List.mem_cons_self _ _
  | cons hd rest ih =>
    intro l2 l3 seen
    simp only [List.cons_append, checkIndexesGo, List.mem_append]
    right
    exact ih l2 l3 _

/-- C6: every index on model `M` with columns `cs` is assigned the name
`M`, the columns of `cs` and the suffix `idx`, all joined by triple
underscores (uniques use the identical algorithm with suffix `key`); two
indexes of one model with the same column list therefore get the same
generated name and the later one is diagnosed as defined multiple times;
and every referenced column that is not a column of the model is
diagnosed. -/
theorem C6_index_unique_naming (m : Model) :
    ((checkIndexes m).1.indexes =
      m.indexes.map (fun ix => { ix with name := makeName m.name ix.columns "idx" })) ∧
    ((checkUniques m).1.uniques =
      m.uniques.map (fun u => { u with name := makeName m.name u.columns "key" })) ∧
    (∀ cols suffix, makeName m.name cols suffix =
      m.name ++ "___" ++ String.intercalate "___" cols ++ "___" ++ suffix) ∧
    (∀ ix1 ix2 : Index, ix1.columns = ix2.columns →
      makeName m.name ix1.columns "idx" = makeName m.name ix2.columns "idx") ∧
    (∀ l1 l2 l3 (ix1 ix2 : Index), m.indexes = l1 ++ ix1 :: l2 ++ ix2 :: l3 →
      ix1.columns = ix2.columns →
      ("Model '" ++ m.name ++ "' index '" ++ describeIndex ix2.columns
        ++ "' is defined multiple times.") ∈ (checkIndexes m).2) ∧
    (∀ ix ∈ m.indexes, ∀ c ∈ ix.columns, m.FindColumn c = none →
      ("Model '" ++ m.name ++ "' index '" ++ describeIndex ix.columns
        ++ "' references unknown column '" ++ c ++ "'") ∈ (checkIndexes m).2) := by
  refine ⟨checkIndexesGo_fst m m.indexes [], checkUniquesGo_fst m m.uniques [],
    fun _ _ => rfl, fun ix1 ix2 h => by rw [h], ?_, ?_⟩
  · intro l1 l2 l3 ix1 ix2 hsplit hcols
    show _ ∈ (checkIndexesGo m m.indexes []).2
    rw [hsplit]
    exact checkIndexesGo_mem_dup m ix1 ix2 hcols l1 l2 l3 []
  · intro ix hmem c hc hfc
    exact checkIndexesGo_mem_unknown m ix c m.indexes [] hmem hc hfc

/-- Witness for C6 on a model with two indexes over the same column list
`[a]` and one index over a non-existent column `z`. -/
theorem C6_index_unique_naming_witness :
    ((checkIndexes ⟨"W", [], [⟨"a", TypeInfo.base "integer", "integer", false⟩],
        none, [⟨"", ["a"]⟩, ⟨"", ["a"]⟩, ⟨"", ["z"]⟩], [], []⟩).1.indexes =
      [⟨"W___a___idx", ["a"]⟩, ⟨"W___a___idx", ["a"]⟩, ⟨"W___z___idx", ["z"]⟩]) ∧
    ("Model 'W' index 'a' is defined multiple times."
      ∈ (checkIndexes ⟨"W", [], [⟨"a", TypeInfo.base "integer", "integer", false⟩],
        none, [⟨"", ["a"]⟩, ⟨"", ["a"]⟩, ⟨"", ["z"]⟩], [], []⟩).2) ∧
    ("Model 'W' index 'z' references unknown column 'z'"
      ∈ (checkIndexes ⟨"W", [], [⟨"a", TypeInfo.base "integer", "integer", false⟩],
        none, [⟨"", ["a"]⟩, ⟨"", ["a"]⟩, ⟨"", ["z"]⟩], [], []⟩).2) := by
  have h := C6_index_unique_naming ⟨"W", [], [⟨"a", TypeInfo.base "integer", "integer", false⟩],
    none, [⟨"", ["a"]⟩, ⟨"", ["a"]⟩, ⟨"", ["z"]⟩], [], []⟩
  refine ⟨by rw [h.1]; rfl, ?_, ?_⟩
  · have hd := h.2.2.2.2.1 [] [] [⟨"", ["z"]⟩] ⟨"", ["a"]⟩ ⟨"", ["a"]⟩ rfl rfl
    simpa using hd
  · have hu := h.2.2.2.2.2 ⟨"", ["z"]⟩ (by simp) "z" (by simp) (by rfl)
    simpa using hu

/-- C2: a foreign key on model `M` with source column `c` is assigned the
name `M`, `c` and the suffix `fkey` joined by triple underscores; a
diagnostic is recorded when `c` is not a column of `M`, when the target
model is not registered, or when the target's primary key does not consist
of exactly one column; when the target's primary key has exactly one
column, the foreign key's target column is resolved to it — and on spec
Scenario A (`User{id PK}`, `Post{id PK, author_id FK→User}`) validation
succeeds and `Post.author_id`'s resolved target column is `id`. -/
theorem C2_foreign_key_checks (built : List (String × Model)) (m : Model)
    (f : ForeignKey) :
    (∀ f' e, checkFK built m f = FKResult.ok f' e →
      f'.name = makeName m.name [f.column] "fkey") ∧
    (m.FindColumn f.column = none →
      ("Model '" ++ m.name ++ "' has a foreign key on non-existing field '"
        ++ f.column ++ "'") ∈ (checkFK built m f).errList) ∧
    (mapLookup f.foreignModel built = none →
      ∃ f' e, checkFK built m f = FKResult.ok f' e ∧
        ("Model '" ++ m.name ++ "' field '" ++ f.column
          ++ "' has foreign key to non-existing model '" ++ f.foreignModel ++ "'") ∈ e ∧
        f'.foreignColumn = f.foreignColumn) ∧
    (∀ m2 pk, mapLookup f.foreignModel built = some m2 → m2.primaryKey = some pk →
      pk.columns.length ≠ 1 →
      ("Model '" ++ m.name ++ "' field '" ++ f.column
        ++ "' has foreign key to model with multi-column primary key '"
        ++ f.foreignModel ++ "'") ∈ (checkFK built m f).errList) ∧
    (∀ m2 pk c, mapLookup f.foreignModel built = some m2 → m2.primaryKey = some pk →
      pk.columns = [c] →
      ∃ e, checkFK built m f = FKResult.ok
        ⟨f.model, f.column, f.foreignModel, makeName m.name [f.column] "fkey", c⟩ e) ∧
    (∃ s, runSchema 10 [tyInt] [userDecl, postDecl] [] = RunOutcome.ok (some s) none [] ∧
      Option.map (fun mm => mm.foreignKeys) (mapLookup "Post" s.models) =
        some [⟨"Post", "author_id", "User", "Post___author_id___fkey", "id"⟩]) := by
  refine ⟨?_, ?_, ?_, ?_, ?_, ⟨_, rfl, rfl⟩⟩
  · intro f' e hok
    simp only [checkFK] at hok
    cases hlook : mapLookup f.foreignModel built with
    | none =>
      simp only [hlook] at hok
      obtain ⟨h1, h2⟩ := FKResult.ok.inj hok
      rw [← h1]
    | some m2 =>
      simp only [hlook] at hok
      cases hpk : m2.primaryKey with
      | none => simp [hpk] at hok
      | some pk =>
        simp only [hpk] at hok
        cases hcols : pk.columns with
        | nil => simp [hcols] at hok
        | cons ff tl =>
          simp only [hcols] at hok
          obtain ⟨h1, h2⟩ := FKResult.ok.inj hok
          rw [← h1]
  · intro hfc
    simp only [checkFK, hfc]
    cases hlook : mapLookup f.foreignModel built with
    | none => simp [hlook, FKResult.errList]
    | some m2 =>
      cases hpk : m2.primaryKey with
      | none => simp [hlook, hpk, FKResult.errList]
      | some pk =>
        cases hcols : pk.columns with
        | nil => simp [hlook, hpk, hcols, FKResult.errList]
        | cons ff tl => simp [hlook, hpk, hcols, FKResult.errList]
  · intro hlook
    simp only [checkFK, hlook]
    exact ⟨_, _, rfl, by simp, rfl⟩
  · intro m2 pk hlook hpk hlen
    simp only [checkFK, hlook, hpk]
    cases hcols : pk.columns with
    | nil =>
      rw [hcols] at hlen
      simp only [hcols, FKResult.errList, List.mem_append]
      right
      simp [hlen]
    | cons ff tl =>
      rw [hcols] at hlen
      simp only [hcols, FKResult.errList, List.mem_append]
      right
      have : ¬tl = [] := by
        intro hnil
        subst hnil
        exact hlen rfl
      simp [hlen, this]
  · intro m2 pk c hlook hpk hcols
    simp only [checkFK, hlook, hpk, hcols]
    exact ⟨_, rfl⟩

/-- Witness for C2: a foreign key from `W.x` to a model `V` whose primary
key is the single column `v`: the step resolves the target column to `v`
and assigns the generated name. -/
theorem C2_foreign_key_checks_witness :
    ∃ e, checkFK [("V", ⟨"V", [], [⟨"v", TypeInfo.base "integer", "integer", false⟩],
        some ⟨["v"]⟩, [], [], []⟩)]
      ⟨"W", [], [⟨"x", TypeInfo.base "integer", "integer", false⟩], none, [], [],
        [⟨"W", "x", "V", "", ""⟩]⟩
      ⟨"W", "x", "V", "", ""⟩ = FKResult.ok
        ⟨"W", "x", "V", makeName "W" ["x"] "fkey", "v"⟩ e :=
  (C2_foreign_key_checks [("V", ⟨"V", [], [⟨"v", TypeInfo.base "integer", "integer", false⟩],
      some ⟨["v"]⟩, [], [], []⟩)]
    ⟨"W", [], [⟨"x", TypeInfo.base "integer", "integer", false⟩], none, [], [],
      [⟨"W", "x", "V", "", ""⟩]⟩
    ⟨"W", "x", "V", "", ""⟩).2.2.2.2.1
    ⟨"V", [], [⟨"v", TypeInfo.base "integer", "integer", false⟩], some ⟨["v"]⟩, [], [], []⟩
    ⟨["v"]⟩ "v" rfl rfl rfl

/-! Primary-key bookkeeping of `makeModel` on item lists without fields. -/

theorem makeModelLevel_noField (types : List (String × TypeInfo))
    (descend : Model → List ModelItem → String → Bool → Option (Model × List String))
    (pfx : String) (fn : Bool) :
    ∀ (items : List ModelItem), (∀ i ∈ items, i.isField = false) → ∀ (m : Model),
      ∃ m', makeModelLevel types descend m items pfx fn =
          some (m', List.replicate
            ((pkDecls items).length - (if m.primaryKey.isSome then 0 else 1))
            ("Model '" ++ m.name ++ "' has multiple primary key definitions")) ∧
        m'.name = m.name ∧
        (∀ ns, (pkDecls items).getLast? = some ns →
          m'.primaryKey = some ⟨undotAll (prefixAll ns pfx)⟩) ∧
        ((pkDecls items).getLast? = none → m'.primaryKey = m.primaryKey) := by
  intro items
  induction items with
  | nil =>
    intro _ m
    refine ⟨m, ?_, rfl, ?_, fun _ => rfl⟩
    · simp [makeModelLevel, pkDecls]
    · intro ns hns
      simp [pkDecls] at hns
  | cons i rest ih =>
    intro hnf m
    have hnfr : ∀ j ∈ rest, j.isField = false :=
      fun j hj => hnf j (List.mem_cons_of_mem _ hj)
    cases i with
    | field name typeName flags =>
      exact absurd (hnf _ (List.mem_cons_self _ _)) (by simp [ModelItem.isField])
    | primaryKey ns =>
      obtain ⟨m', hrun, hname, hpkS, hpkN⟩ := ih hnfr
        { m with primaryKey := some ⟨undotAll (prefixAll ns pfx)⟩ }
      simp only [Option.isSome_some, ite_true, Nat.sub_zero] at hrun
      have hcons : pkDecls (ModelItem.primaryKey ns :: rest) = ns :: pkDecls rest := by
        simp [pkDecls]
      refine ⟨m', ?_, hname, ?_, ?_⟩
      · simp only [makeModelLevel, hrun, Option.map_some, hcons, List.length_cons]
        cases hq : m.primaryKey with
        | none => simp
        | some pk0 => simp [List.replicate_succ]
      · intro ns' hns'
        rw [hcons] at hns'
        cases hrest : pkDecls rest with
        | nil =>
          rw [hrest, List.getLast?_singleton] at hns'
          obtain rfl := Option.some.inj hns'
          rw [hpkN (by rw [hrest]; rfl)]
        | cons a tl =>
          rw [hrest, List.getLast?_cons_cons] at hns'
          exact hpkS ns' (by rw [hrest]; exact hns')
      · intro hnone
        rw [hcons] at hnone
        cases hrest : pkDecls rest with
        | nil => rw [hrest] at hnone; simp at hnone
        | cons a tl => rw [hrest, List.getLast?_cons_cons] at hnone; simp at hnone
    | index ns =>
      obtain ⟨m', hrun, hname, hpkS, hpkN⟩ := ih hnfr
        { m with indexes := m.indexes ++ [⟨"", undotAll (prefixAll ns pfx)⟩] }
      have hsame : pkDecls (ModelItem.index ns :: rest) = pkDecls rest := by simp [pkDecls]
      refine ⟨m', ?_, hname, ?_, ?_⟩
      · simp only [makeModelLevel, hrun, hsame]
      · intro ns' hns'
        exact hpkS ns' (by rw [← hsame]; exact hns')
      · intro hnone
        exact hpkN (by rw [← hsame]; exact hnone)
    | unique ns =>
      obtain ⟨m', hrun, hname, hpkS, hpkN⟩ := ih hnfr
        { m with uniques := m.uniques ++ [⟨"", undotAll (prefixAll ns pfx)⟩] }
      have hsame : pkDecls (ModelItem.unique ns :: rest) = pkDecls rest := by simp [pkDecls]
      refine ⟨m', ?_, hname, ?_, ?_⟩
      · simp only [makeModelLevel, hrun, hsame]
      · intro ns' hns'
        exact hpkS ns' (by rw [← hsame]; exact hns')
      · intro hnone
        exact hpkN (by rw [← hsame]; exact hnone)
    | foreignKey cn fmn =>
      obtain ⟨m', hrun, hname, hpkS, hpkN⟩ := ih hnfr
        { m with foreignKeys := m.foreignKeys ++ [⟨m.name, undot (pfx ++ cn), fmn, "", ""⟩] }
      have hsame : pkDecls (ModelItem.foreignKey cn fmn :: rest) = pkDecls rest := by
        simp [pkDecls]
      refine ⟨m', ?_, hname, ?_, ?_⟩
      · simp only [makeModelLevel, hrun, hsame]
      · intro ns' hns'
        exact hpkS ns' (by rw [← hsame]; exact hns')
      · intro hnone
        exact hpkN (by rw [← hsame]; exact hnone)

/-- C4 counterexample: on a model declaring primary keys on `a` then on
`b`, the built model records one multiple-primary-key diagnostic but keeps
the primary key on `b` — the *last* declaration, not the first as the
claim states. -/
theorem C4_counterexample :
    ∃ m errs, makeModel 10 [("int", TypeInfo.base "integer")] (Model.mk0 "N")
        twoPKDecl.items "" false = some (m, errs) ∧
      errs = ["Model 'N' has multiple primary key definitions"] ∧
      m.primaryKey = some ⟨["b"]⟩ ∧
      (some (⟨["b"]⟩ : PrimaryKey) ≠ some (⟨["a"]⟩ : PrimaryKey)) :=
  ⟨_, _, rfl, rfl, rfl, by decide⟩

/-- C4 amended: for every model item list (without field entries, which do
not carry primary keys) declaring `n ≥ 1` primary keys, each occurrence
after the first records a multiple-primary-key diagnostic — exactly `n-1`
of them — and the primary key kept on the model is the *last* declared
one: later declarations replace earlier ones. -/
theorem C4_multiple_pk_last_wins (fuel : Nat) (types : List (String × TypeInfo))
    (m : Model) (items : List ModelItem) (pfx : String) (fn : Bool)
    (hnf : ∀ i ∈ items, i.isField = false) (hm : m.primaryKey = none) :
    ∃ m', makeModel fuel types m items pfx fn =
        some (m', List.replicate ((pkDecls items).length - 1)
          ("Model '" ++ m.name ++ "' has multiple primary key definitions")) ∧
      (∀ ns, (pkDecls items).getLast? = some ns →
        m'.primaryKey = some ⟨undotAll (prefixAll ns pfx)⟩) := by
  have key : ∀ descend, ∃ m', makeModelLevel types descend m items pfx fn =
      some (m', List.replicate ((pkDecls items).length - 1)
        ("Model '" ++ m.name ++ "' has multiple primary key definitions")) ∧
      (∀ ns, (pkDecls items).getLast? = some ns →
        m'.primaryKey = some ⟨undotAll (prefixAll ns pfx)⟩) := by
    intro descend
    obtain ⟨m', hrun, hname, hpkS, hpkN⟩ :=
      makeModelLevel_noField types descend pfx fn items hnf m
    rw [hm] at hrun
    simp only [Option.isSome_none, Bool.false_eq_true, ite_false] at hrun
    exact ⟨m', hrun, hpkS⟩
  cases fuel with
  | zero => exact key _
  | succ fuel' => exact key _

/-- Witness for C4's amended theorem: two primary-key declarations, on
`a` then on `b`; one diagnostic, and `b` is kept. -/
theorem C4_multiple_pk_last_wins_witness :
    ∃ m', makeModel 1 [] (Model.mk0 "N")
        [ModelItem.primaryKey ["a"], ModelItem.primaryKey ["b"]] "" false =
        some (m', List.replicate
          ((pkDecls [ModelItem.primaryKey ["a"], ModelItem.primaryKey ["b"]]).length - 1)
          ("Model '" ++ (Model.mk0 "N").name ++ "' has multiple primary key definitions")) ∧
      (∀ ns, (pkDecls [ModelItem.primaryKey ["a"], ModelItem.primaryKey ["b"]]).getLast?
          = some ns →
        m'.primaryKey = some ⟨undotAll (prefixAll ns "")⟩) :=
  C4_multiple_pk_last_wins 1 [] (Model.mk0 "N")
    [ModelItem.primaryKey ["a"], ModelItem.primaryKey ["b"]] "" false
    (by decide) rfl

/-! `undot` distributes over append. -/

theorem undotChars_append :
    ∀ l1 l2 : List Char, undotChars (l1 ++ l2) = undotChars l1 ++ undotChars l2 := by
  intro l1 l2
  induction l1 with
  | nil => rfl
  | cons c cs ih =>
    simp only [List.cons_append, undotChars]
    by_cases hc : c = '.'
    · simp [hc, ih]
    · simp [hc, ih]

theorem undot_append (a b : String) : undot (a ++ b) = undot a ++ undot b := by
  cases a with
  | mk da =>
    cases b with
    | mk db =>
      show String.mk (undotChars (da ++ db)) = _
      rw [undotChars_append]
      rfl

/-- The columns one level of `makeModel` appends under forced nullability,
when no nullable struct member occurs below: exactly the leaf base-type
members' columns, all nullable, all named with the (undotted) path prefix. -/
theorem makeModelLevel_forced (types : List (String × TypeInfo))
    (descend : Model → List ModelItem → String → Bool → Option (Model × List String))
    (descendCnt : List ModelItem → Option Nat)
    (descendOk : List ModelItem → Bool)
    (hdescend : ∀ sitems mm m2 pfx2 serrs,
      descend mm sitems pfx2 true = some (m2, serrs) →
      descendOk sitems = true →
      ∃ cols, m2.columns = mm.columns ++ cols ∧ descendCnt sitems = some cols.length ∧
        ∀ c ∈ cols, c.nullable = true ∧ ∃ s, c.name = undot pfx2 ++ s) :
    ∀ (items : List ModelItem) (m m' : Model) (pfx : String) (errs : List String),
      makeModelLevel types descend m items pfx true = some (m', errs) →
      noNullStructLevel types descendOk items = true →
      ∃ newCols : List Column, m'.columns = m.columns ++ newCols ∧
        leafCountLevel types descendCnt items = some newCols.length ∧
        ∀ c ∈ newCols, c.nullable = true ∧ ∃ s, c.name = undot pfx ++ s := by
  intro items
  induction items with
  | nil =>
    intro m m' pfx errs hrun _
    simp only [makeModelLevel, Option.some.injEq, Prod.mk.injEq] at hrun
    obtain ⟨rfl, rfl⟩ := hrun
    exact ⟨[], by simp, by simp [leafCountLevel], by simp⟩
  | cons i rest ih =>
    intro m m' pfx errs hrun hok
    cases i with
    | field fname tn flags =>
      simp only [makeModelLevel] at hrun
      simp only [noNullStructLevel] at hok
      cases hlook : mapLookup tn types with
      | none =>
        simp only [hlook] at hrun hok
        rw [Option.map_eq_some'] at hrun
        obtain ⟨⟨m'', errs0⟩, hrec, heq⟩ := hrun
        simp only [Prod.mk.injEq] at heq
        obtain ⟨rfl, rfl⟩ := heq
        obtain ⟨newCols, hc, hcnt, hall⟩ := ih m m'' pfx errs0 hrec hok
        exact ⟨newCols, hc, by simp [leafCountLevel, hlook, hcnt], hall⟩
      | some t =>
        cases t with
        | base dbt =>
          simp only [hlook] at hrun hok
          by_cases hpfx : pfx = "" <;>
            [simp only [if_pos hpfx] at hrun; simp only [if_neg hpfx] at hrun] <;>
          · rw [Option.map_eq_some'] at hrun
            obtain ⟨⟨m'', errs0⟩, hrec, heq⟩ := hrun
            simp only [Prod.mk.injEq] at heq
            obtain ⟨rfl, rfl⟩ := heq
            obtain ⟨newCols, hc, hcnt, hall⟩ := ih _ m'' pfx errs0 hrec hok
            simp only [Model.mk.injEq] at hc
            refine ⟨⟨undot (pfx ++ fname), TypeInfo.base dbt, dbt,
              isNullable flags || true⟩ :: newCols, ?_, ?_, ?_⟩
            · rw [hc]
              simp
            · simp only [leafCountLevel, hlook, hcnt, Option.map_some]
              simp
            · intro c hcmem
              rcases List.mem_cons.mp hcmem with rfl | hcm
              · exact ⟨Bool.or_true _, undot fname, by rw [show (undot (pfx ++ fname)
                  : String) = undot pfx ++ undot fname from undot_append pfx fname]⟩
              · exact hall c hcm
        | strukt sitems =>
          simp only [hlook] at hrun hok
          rw [Bool.and_eq_true, Bool.and_eq_true] at hok
          obtain ⟨⟨hnn, hsok⟩, hrok⟩ := hok
          rw [Bool.not_eq_true'] at hnn
          simp only [hnn, Bool.false_or, Bool.or_true, Bool.false_eq_true, if_false,
            ite_false] at hrun
          by_cases hpfx : pfx = "" <;>
            [simp only [if_pos hpfx] at hrun; simp only [if_neg hpfx] at hrun] <;>
          · split at hrun
            · exact absurd hrun (by simp)
            · rename_i m2 serrs hdes
              rw [Option.map_eq_some'] at hrun
              obtain ⟨⟨m'', errs0⟩, hrec, heq⟩ := hrun
              simp only [Prod.mk.injEq] at heq
              obtain ⟨rfl, rfl⟩ := heq
              obtain ⟨structCols, hsc, hscnt, hsall⟩ :=
                hdescend sitems _ m2 (pfx ++ fname ++ ".") serrs hdes hsok
              obtain ⟨restCols, hrc, hrcnt, hrall⟩ := ih _ m'' pfx errs0 hrec hrok
              refine ⟨structCols ++ restCols, ?_, ?_, ?_⟩
              · rw [hrc, hsc]
                simp [List.append_assoc]
              · simp only [leafCountLevel, hlook, hscnt, hrcnt]
                simp [Nat.add_comm]
              · intro c hcmem
                rcases List.mem_append.mp hcmem with hcm | hcm
                · obtain ⟨hnul, s, hs⟩ := hsall c hcm
                  refine ⟨hnul, undot fname ++ (undot "." ++ s), ?_⟩
                  rw [hs, undot_append, undot_append]
                  simp [String.append_assoc]
                · exact hrall c hcm
    | primaryKey ns =>
      simp only [makeModelLevel] at hrun
      rw [Option.map_eq_some'] at hrun
      obtain ⟨⟨m'', errs0⟩, hrec, heq⟩ := hrun
      simp only [Prod.mk.injEq] at heq
      obtain ⟨rfl, rfl⟩ := heq
      obtain ⟨newCols, hc, hcnt, hall⟩ := ih _ m'' pfx errs0 hrec
        (by simpa [noNullStructLevel] using hok)
      exact ⟨newCols, by simpa using hc, by simpa [leafCountLevel] using hcnt, hall⟩
    | index ns =>
      simp only [makeModelLevel] at hrun
      obtain ⟨newCols, hc, hcnt, hall⟩ := ih _ m' pfx errs hrun
        (by simpa [noNullStructLevel] using hok)
      exact ⟨newCols, by simpa using hc, by simpa [leafCountLevel] using hcnt, hall⟩
    | unique ns =>
      simp only [makeModelLevel] at hrun
      obtain ⟨newCols, hc, hcnt, hall⟩ := ih _ m' pfx errs hrun
        (by simpa [noNullStructLevel] using hok)
      exact ⟨newCols, by simpa using hc, by simpa [leafCountLevel] using hcnt, hall⟩
    | foreignKey cn fmn =>
      simp only [makeModelLevel] at hrun
      obtain ⟨newCols, hc, hcnt, hall⟩ := ih _ m' pfx errs hrun
        (by simpa [noNullStructLevel] using hok)
      exact ⟨newCols, by simpa using hc, by simpa [leafCountLevel] using hcnt, hall⟩

/-- Fuel-indexed version of `makeModelLevel_forced`: under forced
nullability and with no nullable struct member below, `makeModel` appends
exactly the leaf columns, all nullable, all under the path prefix. -/
theorem makeModel_forced_columns (types : List (String × TypeInfo)) :
    ∀ (fuel : Nat) (items : List ModelItem) (m m' : Model) (pfx : String)
      (errs : List String),
      makeModel fuel types m items pfx true = some (m', errs) →
      noNullStruct types fuel items = true →
      ∃ newCols : List Column, m'.columns = m.columns ++ newCols ∧
        leafCount types fuel items = some newCols.length ∧
        ∀ c ∈ newCols, c.nullable = true ∧ ∃ s, c.name = undot pfx ++ s := by
  intro fuel
  induction fuel with
  | zero =>
    intro items m m' pfx errs hrun hok
    exact makeModelLevel_forced types (fun _ _ _ _ => none) (fun _ => none)
      (fun _ => false)
      (fun sitems mm m2 pfx2 serrs h _ => absurd h (by simp))
      items m m' pfx errs hrun hok
  | succ f ihf =>
    intro items m m' pfx errs hrun hok
    exact makeModelLevel_forced types (makeModel f types) (leafCount types f)
      (noNullStruct types f)
      (fun sitems mm m2 pfx2 serrs h h2 => ihf sitems mm m2 pfx2 serrs h h2)
      items m m' pfx errs hrun hok

/-- C5 amended: a top-level nullable field of struct type whose struct
contains `N` leaf base-type members, none of whose nested members is
itself a nullable struct, flattens to exactly `N + 1` columns: the `N`
leaf columns, all forced nullable and named under the field's
double-underscore prefix, followed by one synthetic boolean presence
column at the field's own path, non-nullable at top level.  (Each nested
*nullable* struct member would add one further presence column, see the
counterexample.) -/
theorem C5_nullable_struct_field_columns (fuel : Nat)
    (types : List (String × TypeInfo)) (m m' : Model) (fname tn : String)
    (flags : List FieldFlag) (sitems : List ModelItem) (errs : List String)
    (hnull : isNullable flags = true)
    (hlook : mapLookup tn types = some (TypeInfo.strukt sitems))
    (hok : noNullStruct types fuel sitems = true)
    (hrun : makeModel (fuel + 1) types m [ModelItem.field fname tn flags] "" false =
      some (m', errs)) :
    ∃ (leafCols : List Column) (n : Nat),
      leafCount types fuel sitems = some n ∧ leafCols.length = n ∧
      m'.columns = m.columns ++ leafCols
        ++ [⟨undot fname, boolBaseType, "boolean", false⟩] ∧
      m'.columns.length = m.columns.length + (n + 1) ∧
      (∀ c ∈ leafCols, c.nullable = true ∧ ∃ s, c.name = undot (fname ++ ".") ++ s) := by
  simp only [makeModel, makeModelLevel, hlook, hnull] at hrun
  split at hrun
  · exact absurd hrun (by simp)
  · rename_i m2 serrs hdes
    simp only [if_true] at hdes hrun
    simp only [Option.map_some', Option.some.injEq, Prod.mk.injEq] at hrun
    obtain ⟨rfl, rfl⟩ := hrun
    obtain ⟨leafCols, hc, hcnt, hall⟩ :=
      makeModel_forced_columns types fuel sitems _ m2 _ serrs hdes hok
    have hc' : m2.columns = m.columns ++ leafCols := hc
    refine ⟨leafCols, leafCols.length, hcnt, rfl, ?_, ?_, ?_⟩
    · show m2.columns ++ [(⟨undot ("" ++ fname), boolBaseType, "boolean", false⟩ : Column)] = _
      rw [hc']
      simp [List.append_assoc]
    · show (m2.columns ++ [(⟨undot ("" ++ fname), boolBaseType, "boolean", false⟩ : Column)]).length = _
      rw [hc']
      simp
    · intro c hcm
      exact hall c hcm

/-- C5 counterexample: the nullable struct field `a : Outer` where
`Outer{b Inner, nullable}` and `Inner{c int}` has `N = 1` leaf base-type
member (`c`), yet flattening yields 3 columns, not `N + 1 = 2`: the leaf
`a__b__c`, the presence column `a__b` of the nested nullable struct, and
the field's own presence column `a`. -/
theorem C5_counterexample :
    mapLookup "Outer" cTypesMap =
      some (TypeInfo.strukt [ModelItem.field "b" "Inner" [FieldFlag.nullFlag]]) ∧
    leafCount cTypesMap 9 [ModelItem.field "b" "Inner" [FieldFlag.nullFlag]] = some 1 ∧
    (∃ m' errs, makeModel 10 cTypesMap (Model.mk0 "M")
        [ModelItem.field "a" "Outer" [FieldFlag.nullFlag]] "" false = some (m', errs) ∧
      m'.columns = [⟨"a__b__c", TypeInfo.base "integer", "integer", true⟩,
        ⟨"a__b", TypeInfo.base "boolean", "boolean", true⟩,
        ⟨"a", TypeInfo.base "boolean", "boolean", false⟩] ∧
      m'.columns.length = 3) ∧
    (3 : Nat) ≠ 1 + 1 :=
  ⟨rfl, rfl, ⟨_, _, rfl, rfl, rfl⟩, by decide⟩

/-- Witness for C5's amended theorem: flattening the nullable field
`a : S{x int, y int}` (two leaves, no nullable struct members) yields the
two forced-nullable leaf columns under prefix `a__` plus the presence
column `a`. -/
theorem C5_nullable_struct_field_columns_witness :
    ∃ (leafCols : List Column) (n : Nat),
      leafCount flatTypesMap 1
        [ModelItem.field "x" "int" [], ModelItem.field "y" "int" []] = some n ∧
      leafCols.length = n ∧
      flatBuiltModel.columns = (Model.mk0 "F").columns ++ leafCols
        ++ [⟨undot "a", boolBaseType, "boolean", false⟩] ∧
      flatBuiltModel.columns.length = (Model.mk0 "F").columns.length + (n + 1) ∧
      (∀ c ∈ leafCols, c.nullable = true ∧ ∃ s, c.name = undot ("a" ++ ".") ++ s) :=
  C5_nullable_struct_field_columns 1 flatTypesMap (Model.mk0 "F") flatBuiltModel
    "a" "S" [FieldFlag.nullFlag]
    [ModelItem.field "x" "int" [], ModelItem.field "y" "int" []] []
    rfl rfl (by rfl) (by rfl)

/-! Termination of the flattening on acyclic struct-reference graphs. -/

theorem mapLookup_mem {α : Type} (k : String) (v : α) :
    ∀ l : List (String × α), mapLookup k l = some v → (k, v) ∈ l := by
  intro l
  induction l with
  | nil => intro h; exact absurd h (by simp [mapLookup])
  | cons p rest ih =>
    intro h
    obtain ⟨k', v'⟩ := p
    simp only [mapLookup] at h
    by_cases hk : k = k'
    · rw [if_pos hk] at h
      obtain rfl := Option.some.inj h
      subst hk
      exact List.mem_cons_self _ _
    · rw [if_neg hk] at h
      exact List.mem_cons_of_mem _ (ih h)

theorem le_foldr_max (a : Nat) :
    ∀ l : List Nat, a ∈ l → a ≤ l.foldr max 0 := by
  intro l
  induction l with
  | nil => intro h; exact absurd h (by simp)
  | cons b rest ih =>
    intro h
    rcases List.mem_cons.mp h with rfl | hm
    · exact Nat.le_max_left _ _
    · exact Nat.le_trans (ih hm) (Nat.le_max_right _ _)

theorem structRefIn_cons {types : List (String × TypeInfo)} {i : ModelItem}
    {rest : List ModelItem} {tn : String} (h : structRefIn types rest tn) :
    structRefIn types (i :: rest) tn := by
  obtain ⟨nm, fl, hmem, sitems, hlook⟩ := h
  exact ⟨nm, fl, List.mem_cons_of_mem _ hmem, sitems, hlook⟩

theorem isSome_map' {α β : Type} (f : α → β) (x : Option α) :
    (Option.map f x).isSome = x.isSome := by
  cases x <;> rfl

/-- With an acyclicity rank and enough fuel for every struct reference in
the item list, `makeModel` never exhausts its fuel. -/
theorem makeModel_isSome (types : List (String × TypeInfo)) (rank : String → Nat)
    (hacy : acyclicRank types rank) :
    ∀ (fuel : Nat) (items : List ModelItem),
      (∀ tn, structRefIn types items tn → rank tn < fuel) →
      ∀ (m : Model) (pfx : String) (fn : Bool),
        (makeModel fuel types m items pfx fn).isSome = true := by
  intro fuel
  induction fuel with
  | zero =>
    intro items
    induction items with
    | nil =>
      intro _ m pfx fn
      simp [makeModel, makeModelLevel]
    | cons i rest ihr =>
      intro hbound m pfx fn
      have hbr : ∀ tn, structRefIn types rest tn → rank tn < 0 :=
        fun tn h => hbound tn (structRefIn_cons h)
      cases i with
      | field fname tn flags =>
        simp only [makeModel, makeModelLevel]
        cases hlook : mapLookup tn types with
        | none =>
          simp only [hlook, isSome_map']
          exact ihr hbr _ pfx fn
        | some t =>
          cases t with
          | base dbt =>
            simp only [hlook, isSome_map']
            exact ihr hbr _ pfx fn
          | strukt sitems =>
            exact absurd (hbound tn ⟨fname, flags, List.mem_cons_self _ _, sitems, hlook⟩)
              (Nat.not_lt_zero _)
      | primaryKey ns =>
        simp only [makeModel, makeModelLevel, isSome_map']
        exact ihr hbr _ pfx fn
      | index ns =>
        simp only [makeModel, makeModelLevel]
        exact ihr hbr _ pfx fn
      | unique ns =>
        simp only [makeModel, makeModelLevel]
        exact ihr hbr _ pfx fn
      | foreignKey cn fmn =>
        simp only [makeModel, makeModelLevel]
        exact ihr hbr _ pfx fn
  | succ f ihf =>
    intro items
    induction items with
    | nil =>
      intro _ m pfx fn
      simp [makeModel, makeModelLevel]
    | cons i rest ihr =>
      intro hbound m pfx fn
      have hbr : ∀ tn, structRefIn types rest tn → rank tn < f + 1 :=
        fun tn h => hbound tn (structRefIn_cons h)
      cases i with
      | field fname tn flags =>
        simp only [makeModel, makeModelLevel]
        cases hlook : mapLookup tn types with
        | none =>
          simp only [hlook, isSome_map']
          exact ihr hbr _ pfx fn
        | some t =>
          cases t with
          | base dbt =>
            simp only [hlook, isSome_map']
            exact ihr hbr _ pfx fn
          | strukt sitems =>
            simp only [hlook]
            have hb2 : ∀ tn', structRefIn types sitems tn' → rank tn' < f := by
              intro tn' h'
              have h1 : rank tn < f + 1 :=
                hbound tn ⟨fname, flags, List.mem_cons_self _ _, sitems, hlook⟩
              have h2 : rank tn' < rank tn := hacy tn sitems tn' hlook h'
              omega
            obtain ⟨⟨m2, serrs⟩, hdes⟩ :=
              Option.isSome_iff_exists.mp (ihf sitems hb2 _
                (pfx ++ fname ++ ".") (isNullable flags || fn))
            rw [hdes]
            simp only [isSome_map']
            exact ihr hbr _ pfx fn
      | primaryKey ns =>
        simp only [makeModel, makeModelLevel, isSome_map']
        exact ihr hbr _ pfx fn
      | index ns =>
        simp only [makeModel, makeModelLevel]
        exact ihr hbr _ pfx fn
      | unique ns =>
        simp only [makeModel, makeModelLevel]
        exact ihr hbr _ pfx fn
      | foreignKey cn fmn =>
        simp only [makeModel, makeModelLevel]
        exact ihr hbr _ pfx fn

/-- Under the same bound, the whole model-building pass never exhausts
its fuel. -/
theorem buildModels_isSome (fuel : Nat) (tmap : List (String × TypeInfo))
    (rank : String → Nat) (hacy : acyclicRank tmap rank)
    (hfuel : maxRank tmap rank < fuel) :
    ∀ (ms : List ModelDecl) (acc : List (String × Model)),
      (buildModels fuel tmap ms acc).isSome = true := by
  have hbound : ∀ (items : List ModelItem) (tn : String),
      structRefIn tmap items tn → rank tn < fuel := by
    intro items tn h
    obtain ⟨nm, fl, hmem, sitems, hlook⟩ := h
    have hm := mapLookup_mem tn (TypeInfo.strukt sitems) tmap hlook
    have hr : rank tn ∈ tmap.map (fun p => rank p.1) :=
      List.mem_map.mpr ⟨(tn, TypeInfo.strukt sitems), hm, rfl⟩
    have h2 : rank tn ≤ maxRank tmap rank := le_foldr_max (rank tn) _ hr
    omega
  intro ms
  induction ms with
  | nil => intro acc; simp [buildModels]
  | cons d rest ih =>
    intro acc
    simp only [buildModels]
    obtain ⟨⟨m1, merrs⟩, hmk⟩ := Option.isSome_iff_exists.mp
      (makeModel_isSome tmap rank hacy fuel d.items (hbound d.items)
        (Model.mk0 d.name) "" false)
    simp only [hmk]
    obtain ⟨⟨built, errs⟩, hbm⟩ := Option.isSome_iff_exists.mp
      (ih (mapInsert d.name m1 acc))
    simp only [hbm]
    rfl

/-- With an acyclicity rank for the registered type map and fuel above the
ranks' maximum, `Schema()` never diverges (it returns or panics). -/
theorem runSchema_no_diverge (ts : List TypeDecl) (ms : List ModelDecl)
    (rank : String → Nat) (fuel : Nat) (errs0 : List String)
    (hacy : acyclicRank (registerTypes ts []).1 rank)
    (hfuel : maxRank (registerTypes ts []).1 rank < fuel) :
    runSchema fuel ts ms errs0 ≠ RunOutcome.diverge := by
  have hb := buildModels_isSome fuel (registerTypes ts []).1 rank hacy hfuel ms []
  obtain ⟨⟨built, e3⟩, hbm⟩ := Option.isSome_iff_exists.mp hb
  have hcore : runCore fuel ts ms ≠ CoreOutcome.diverge := by
    simp only [runCore]
    rw [hbm]
    cases hrc : runChecks built built <;> simp [hrc]
  cases hc : runCore fuel ts ms with
  | diverge => exact absurd hc hcore
  | panicked msg e =>
    rw [runSchema_eq_panicked hc errs0]
    simp
  | done tmap models' e =>
    rw [runSchema_eq_done hc errs0]
    by_cases he : (errs0 ++ e).isEmpty
    · rw [if_pos he]; simp
    · rw [if_neg he]; simp

/-- On the cyclic type `C{s C}`, `makeModel` exhausts any amount of fuel:
this is the Go code recursing without bound. -/
theorem makeModel_cyc_none :
    ∀ (fuel : Nat) (m : Model) (x : String) (flags : List FieldFlag)
      (pfx : String) (fn : Bool),
      makeModel fuel [("C", TypeInfo.strukt [ModelItem.field "s" "C" []])] m
        [ModelItem.field x "C" flags] pfx fn = none := by
  intro fuel
  induction fuel with
  | zero =>
    intro m x flags pfx fn
    rfl
  | succ f ih =>
    intro m x flags pfx fn
    simp only [makeModel, makeModelLevel]
    simp only [show mapLookup "C" [("C", TypeInfo.strukt [ModelItem.field "s" "C" []])]
      = some (TypeInfo.strukt [ModelItem.field "s" "C" []]) from rfl]
    rw [ih]

/-- The whole run diverges on the cyclic declaration set, at every fuel. -/
theorem runSchema_cyc_diverges :
    ∀ fuel : Nat, runSchema fuel [tyCyc] [cycModelDecl] [] = RunOutcome.diverge := by
  intro fuel
  have h2 : buildModels fuel (registerTypes [tyCyc] []).1 [cycModelDecl] [] = none := by
    simp only [buildModels]
    rw [show (registerTypes [tyCyc] []).1
      = [("C", TypeInfo.strukt [ModelItem.field "s" "C" []])] from rfl]
    rw [show cycModelDecl.items = [ModelItem.field "f" "C" []] from rfl]
    rw [makeModel_cyc_none]
  have hcore : runCore fuel [tyCyc] [cycModelDecl] = CoreOutcome.diverge := by
    simp only [runCore]
    rw [h2]
  rw [runSchema_eq_diverge hcore]

/-- C9 counterexample: an acyclic declaration set (its registry holds only
the base type `int`, no struct references at all) on which `Schema()` does
not return a value at any fuel — it panics on the foreign key to the
primary-key-less model — so `Schema()` is not a total function on acyclic
inputs as the claim states. -/
theorem C9_counterexample :
    (registerTypes [tyInt] []).1 = [("int", TypeInfo.base "integer")] ∧
    runSchema 0 [tyInt] [modelA, modelB_noPK] [] =
      RunOutcome.panicked
        "runtime error: invalid memory address or nil pointer dereference" [] :=
  ⟨rfl, rfl⟩

/-- C9 amended: on declaration sets whose struct-type reference graph is
acyclic (witnessed by a rank function), the recursive flattening of
`makeModel` terminates — with fuel above every referenced rank it never
exhausts its fuel, and with fuel above the registry's maximal rank the
whole `Schema()` run never diverges (though it can still panic, per the
foreign-key defect, so it is not total); cyclic references among struct
types are the only source of unbounded recursion and are not guarded
against: on the cyclic type `C{s C}` the run diverges at every fuel. -/
theorem C9_acyclic_flattening_terminates :
    (∀ (types : List (String × TypeInfo)) (rank : String → Nat),
      acyclicRank types rank →
      ∀ (fuel : Nat) (items : List ModelItem),
        (∀ tn, structRefIn types items tn → rank tn < fuel) →
        ∀ (m : Model) (pfx : String) (fn : Bool),
          (makeModel fuel types m items pfx fn).isSome = true) ∧
    (∀ (ts : List TypeDecl) (ms : List ModelDecl) (rank : String → Nat)
        (fuel : Nat) (errs0 : List String),
      acyclicRank (registerTypes ts []).1 rank →
      maxRank (registerTypes ts []).1 rank < fuel →
      runSchema fuel ts ms errs0 ≠ RunOutcome.diverge) ∧
    (∀ fuel : Nat, runSchema fuel [tyCyc] [cycModelDecl] [] = RunOutcome.diverge) :=
  ⟨fun types rank hacy => makeModel_isSome types rank hacy,
   fun ts ms rank fuel errs0 hacy hfuel =>
     runSchema_no_diverge ts ms rank fuel errs0 hacy hfuel,
   runSchema_cyc_diverges⟩

/-- Witness for C9's amended theorem: the struct-free Scenario A types are
acyclic under the constant rank, and the run does not diverge. -/
theorem C9_acyclic_flattening_terminates_witness :
    runSchema 1 [tyInt] [userDecl] [] ≠ RunOutcome.diverge :=
  C9_acyclic_flattening_terminates.2.1 [tyInt] [userDecl] (fun _ => 0) 1 []
    (by
      intro tn sitems tn' hlook h'
      rw [show (registerTypes [tyInt] []).1
        = [("int", TypeInfo.base "integer")] from rfl] at hlook
      simp only [mapLookup] at hlook
      split at hlook <;> simp_all)
    (by decide)

end Sqlbunny
